import Mathlib

/-!
Shallow embedding of the IP-ROAS calculation engine
(`src/lib/roas-engine.ts` and `src/types/roas.ts`).

Numbers are modelled by exact rationals; the floating-point positive-infinity
sentinel used by the engine is modelled by the two-constructor
type `RVal` (a finite rational, or positive infinity).  Every guarded
division in the source checks its denominator before dividing, so with
finite inputs no other non-finite value can arise.
-/

namespace IpRoas

/-- A JS number as produced by the engine formulas: either a finite value
or the positive-infinity sentinel returned on a non-positive denominator. -/
inductive RVal where
  | fin (q : ℚ)
  | inf
deriving DecidableEq

/-- Model of `Producto` from `src/types/roas.ts`. -/
structure Producto where
  nombre : String
  precio : ℚ
  margenBruto : ℚ
deriving DecidableEq

/-- Model of `ParametrosCliente` from `src/types/roas.ts`. -/
structure ParametrosCliente where
  inversionPublicitaria : ℚ
  tarifaFija : ℚ
  ingresoEsperado : ℚ
  productos : List Producto
deriving DecidableEq

/-- Model of `ResultadosIPROAS` from `src/types/roas.ts`.  Fields that the engine can
set to the infinity sentinel are `RVal`; the others are always finite. -/
structure ResultadosIPROAS where
  ipRoas : RVal
  vum : ℚ
  roasMinTradicional : RVal
  cprEstimado : RVal
  costosTotales : ℚ
  margenMinimoUsado : ℚ
  precioProductoMinimo : ℚ
  productoCritico : String
deriving DecidableEq

/-- Model of `SensitivityType` from `src/types/roas.ts`. -/
inductive SensitivityType where
  | IP
  | TF
  | IE
  | Margen
deriving DecidableEq

/-- Model of `SensitivityDataPoint` from `src/types/roas.ts`. -/
structure SensitivityDataPoint where
  x : ℚ
  ipRoas : RVal
  roasTradicional : RVal
deriving DecidableEq

/-- Source function `margenAbsoluto`: `producto.precio * producto.margenBruto`. -/
def margenAbsoluto (producto : Producto) : ℚ :=
  producto.precio * producto.margenBruto

/-- Source function `costosTotales`: `IP + TF + IE`. -/
def costosTotales (params : ParametrosCliente) : ℚ :=
  params.inversionPublicitaria + params.tarifaFija + params.ingresoEsperado

/-- The reducer passed to `reduce` inside `productoMargenMinimo`: keep the
accumulator unless the next product has a strictly smaller absolute margin. -/
def minStep (mn p : Producto) : Producto :=
  if margenAbsoluto p < margenAbsoluto mn then p else mn

/-- Source function `productoMargenMinimo`: `reduce` with the strict comparator
`margenAbsoluto p < margenAbsoluto mn`; `null` on the empty list. -/
def productoMargenMinimo (productos : List Producto) : Option Producto :=
  match productos with
  | [] => none
  | h :: t => some (t.foldl minStep h)

/-- Source function `calcularIpRoas`: `1 + (TF + IE) / IP`, infinity when `IP <= 0`. -/
def calcularIpRoas (IP TF IE : ℚ) : RVal :=
  if IP ≤ 0 then .inf else .fin (1 + (TF + IE) / IP)

/-- Source function `calcularVum`: when the optional `margenAbs` argument is absent it is
derived from the critical product (returning 0 when there is none or its
absolute margin is non-positive); then `ceil(costosTotales / margenAbs)`,
0 when `margenAbs <= 0`. -/
def calcularVum (params : ParametrosCliente) (margenAbsArg : Option ℚ) : ℚ :=
  match margenAbsArg with
  | none =>
    match productoMargenMinimo params.productos with
    | none => 0
    | some producto =>
      if margenAbsoluto producto ≤ 0 then 0
      else ((⌈costosTotales params / margenAbsoluto producto⌉ : ℤ) : ℚ)
  | some m =>
    if m ≤ 0 then 0
    else ((⌈costosTotales params / m⌉ : ℤ) : ℚ)

/-- Source function `calcularRoasMinTradicional`: `(precio * vum) / IP`, infinity when `IP <= 0`. -/
def calcularRoasMinTradicional (IP vum precio : ℚ) : RVal :=
  if IP ≤ 0 then .inf else .fin (precio * vum / IP)

/-- Source function `calcularCprEstimado`: `IP / vum`, infinity when `vum <= 0`. -/
def calcularCprEstimado (IP vum : ℚ) : RVal :=
  if vum ≤ 0 then .inf else .fin (IP / vum)

/-- Source function `fRoasTradicional`: recomputes `vum = ceil((TF + IP + IE) / mStar)`
internally, then `(pStar * vum) / IP`; infinity when `IP <= 0` or `mStar <= 0`. -/
def fRoasTradicional (IP TF IE mStar pStar : ℚ) : RVal :=
  if IP ≤ 0 ∨ mStar ≤ 0 then .inf
  else .fin (pStar * ((⌈(TF + IP + IE) / mStar⌉ : ℤ) : ℚ) / IP)

/-- Source function `calcularTodo`: the aggregate calculator. -/
def calcularTodo (params : ParametrosCliente) : ResultadosIPROAS :=
  match productoMargenMinimo params.productos with
  | none =>
    { ipRoas := .fin 0
      vum := 0
      roasMinTradicional := .fin 0
      cprEstimado := .fin 0
      costosTotales := 0
      margenMinimoUsado := 0
      precioProductoMinimo := 0
      productoCritico := "N/A" }
  | some producto =>
    let IP := params.inversionPublicitaria
    let TF := params.tarifaFija
    let IE := params.ingresoEsperado
    let ipRoas := calcularIpRoas IP TF IE
    let vum := calcularVum params none
    let roasMinTradicional := calcularRoasMinTradicional IP vum producto.precio
    let cprEstimado := calcularCprEstimado IP vum
    { ipRoas := ipRoas
      vum := vum
      roasMinTradicional := roasMinTradicional
      cprEstimado := cprEstimado
      costosTotales := costosTotales params
      margenMinimoUsado := margenAbsoluto producto
      precioProductoMinimo := producto.precio
      productoCritico := producto.nombre }

/-- Source function `linspace(start, end, n)`: `n` linearly spaced values, inclusive ends;
`[start]` when `n <= 1`. -/
def linspace (a b : ℚ) (n : ℕ) : List ℚ :=
  if n ≤ 1 then [a]
  else (List.range n).map (fun i : ℕ => a + ((b - a) / ((n : ℚ) - 1)) * (i : ℚ))

/-- Source function `calcularSensibilidad`: the sensitivity sweep generator; `null` when the
portfolio has no critical product. -/
def calcularSensibilidad (tipo : SensitivityType) (params : ParametrosCliente)
    (numPoints : ℕ) : Option (List SensitivityDataPoint) :=
  match productoMargenMinimo params.productos with
  | none => none
  | some producto =>
    let mStar := margenAbsoluto producto
    let pStar := producto.precio
    let IP0 := params.inversionPublicitaria
    let TF0 := params.tarifaFija
    let IE0 := params.ingresoEsperado
    match tipo with
    | .IP =>
      let IP := if IP0 ≤ 0 then 10000 else IP0
      let xMin := max 100 (IP * (1/2))
      let xMax := IP * (3/2)
      some ((linspace xMin xMax numPoints).map (fun x =>
        { x := x
          ipRoas := calcularIpRoas x TF0 IE0
          roasTradicional := fRoasTradicional x TF0 IE0 mStar pStar }))
    | .TF =>
      let TF := if TF0 ≤ 0 then 5000 else TF0
      let xMin := max 0 (TF * (1/2))
      let xMax := TF * (3/2)
      some ((linspace xMin xMax numPoints).map (fun x =>
        { x := x
          ipRoas := calcularIpRoas IP0 x IE0
          roasTradicional := fRoasTradicional IP0 x IE0 mStar pStar }))
    | .IE =>
      let IE := if IE0 ≤ 0 then 5000 else IE0
      let xMin := max 0 (IE * (1/2))
      let xMax := IE * (3/2)
      some ((linspace xMin xMax numPoints).map (fun x =>
        { x := x
          ipRoas := calcularIpRoas IP0 TF0 x
          roasTradicional := fRoasTradicional IP0 TF0 x mStar pStar }))
    | .Margen =>
      let margenPct := if producto.margenBruto ≤ 0 then (3/10 : ℚ) else producto.margenBruto
      let xMin := max (1/20) (margenPct * (1/2))
      let xMax := min (19/20) (margenPct * (3/2))
      some ((linspace xMin xMax numPoints).map (fun x =>
        { x := x
          ipRoas := calcularIpRoas IP0 TF0 IE0
          roasTradicional := fRoasTradicional IP0 TF0 IE0 (pStar * x) pStar }))

/-!
CSV ingestion (`parseCSV` in `src/lib/roas-engine.ts`).  Strings are handled
as character lists; `jsParseFloat` models the JavaScript `parseFloat`
builtin on decimal literals (optional leading whitespace and sign, digits
with an optional fraction, an optional exponent, longest valid prefix,
`NaN` — here `none` — when no digit is found); the `Infinity` literal is
outside the rational embedding and is not modelled.
-/

/-- Whitespace characters stripped by `trim` (ASCII range). -/
def isWsChar (c : Char) : Bool :=
  c = ' ' || c = '\t' || c = '\n' || c = '\r' || c = '\x0b' || c = '\x0c'

/-- Model of `String.prototype.trim`. -/
def trimList (cs : List Char) : List Char :=
  (((cs.dropWhile isWsChar).reverse).dropWhile isWsChar).reverse

/-- Model of `String.prototype.split(sep)` for a single-character separator:
never returns the empty list, keeps empty fields. -/
def splitChar (sep : Char) : List Char → List (List Char)
  | [] => [[]]
  | c :: rest =>
    let r := splitChar sep rest
    if c = sep then [] :: r
    else
      match r with
      | [] => [[c]]
      | h :: t => (c :: h) :: t

/-- Value of a digit string (most significant first). -/
def digitsToNat (ds : List Char) : ℕ :=
  ds.foldl (fun a c => a * 10 + (c.toNat - 48)) 0

/-- JavaScript `parseFloat` on the decimal-literal fragment (see section
comment above): `none` models `NaN`. -/
def jsParseFloat (cs : List Char) : Option ℚ :=
  let cs0 := cs.dropWhile isWsChar
  let sgn : ℚ := match cs0 with
    | '-' :: _ => -1
    | _ => 1
  let cs1 : List Char := match cs0 with
    | '-' :: r => r
    | '+' :: r => r
    | _ => cs0
  let intDigits := cs1.takeWhile Char.isDigit
  let cs2 := cs1.dropWhile Char.isDigit
  let fracDigits : List Char := match cs2 with
    | '.' :: r => r.takeWhile Char.isDigit
    | _ => []
  let cs3 : List Char := match cs2 with
    | '.' :: r => r.dropWhile Char.isDigit
    | _ => cs2
  if intDigits = [] ∧ fracDigits = [] then none
  else
    let mant : ℚ :=
      (digitsToNat intDigits : ℚ) + (digitsToNat fracDigits : ℚ) / ((10 : ℚ) ^ fracDigits.length)
    let expo : ℤ := match cs3 with
      | e :: r =>
        if e = 'e' ∨ e = 'E' then
          let esgn : ℤ := match r with
            | '-' :: _ => -1
            | _ => 1
          let r1 : List Char := match r with
            | '-' :: r2 => r2
            | '+' :: r2 => r2
            | _ => r
          let eds := r1.takeWhile Char.isDigit
          if eds = [] then 0 else esgn * (digitsToNat eds : ℤ)
        else 0
      | [] => 0
    some (sgn * mant * (10 : ℚ) ^ expo)

/-- Lookup `row[h]`: the row object is built by `forEach` assignment over the
header list, so a duplicated column name keeps the last occurrence;
a key missing from the header yields `undefined` (`none`). -/
def rowGet (headers values : List (List Char)) (key : List Char) : Option (List Char) :=
  (((headers.zip values).filter (fun hv => hv.1 = key)).getLast?).map (fun hv => hv.2)

/-- JavaScript `a || b` on an optional string `a`: `undefined` and the
empty string are falsy. -/
def orElseStr (a b : Option (List Char)) : Option (List Char) :=
  match a with
  | some s => if s = [] then b else some s
  | none => b

/-- JavaScript `a || d` with a plain-string right operand. -/
def orDefault (a : Option (List Char)) (d : List Char) : List Char :=
  match a with
  | some s => if s = [] then d else s
  | none => d

/-- The comma-split, trimmed field list of a data row. -/
def valuesOf (line : List Char) : List (List Char) :=
  (splitChar ',' line).map trimList

/-- JS expression `row["nombre"] || row["name"]` with default name `P(count+1)`. -/
def nombreOf (headers values : List (List Char)) (count : ℕ) : List Char :=
  orDefault (orElseStr (rowGet headers values "nombre".data) (rowGet headers values "name".data))
    ('P' :: (toString (count + 1)).data)

/-- JS expression `row["precio"] || row["price"] || "0"`. -/
def precioStrOf (headers values : List (List Char)) : List Char :=
  orDefault (orElseStr (rowGet headers values "precio".data) (rowGet headers values "price".data))
    "0".data

/-- JS expression `row["margen"] || row["margen_bruto"] || row["margin"] || "0"`. -/
def margenStrOf (headers values : List (List Char)) : List Char :=
  orDefault
    (orElseStr
      (orElseStr (rowGet headers values "margen".data) (rowGet headers values "margen_bruto".data))
      (rowGet headers values "margin".data))
    "0".data

/-- The body of the `parseCSV` row loop: `none` when the row is skipped
(too few fields, or a price/margin that does not parse), otherwise the
produced `Producto`, with the percentage heuristic applied to the margin. -/
def rowProduct (headers : List (List Char)) (count : ℕ) (line : List Char) : Option Producto :=
  let values := valuesOf line
  if values.length < headers.length then none
  else
    match jsParseFloat (precioStrOf headers values), jsParseFloat (margenStrOf headers values) with
    | some precio, some margen0 =>
      some
        { nombre := String.mk (nombreOf headers values count)
          precio := precio
          margenBruto := if 1 < margen0 then margen0 / 100 else margen0 }
    | _, _ => none

/-- The `parseCSV` loop over the data lines, threading the count of
products accepted so far (used for the default name). -/
def processLines (headers : List (List Char)) (count : ℕ) :
    List (List Char) → List Producto
  | [] => []
  | line :: rest =>
    match rowProduct headers count line with
    | some p => p :: processLines headers (count + 1) rest
    | none => processLines headers count rest

/-- Source function `parseCSV`: trim, split into lines, fewer than two lines is empty;
the first line is the lower-cased trimmed header. -/
def parseCSV (csvText : String) : List Producto :=
  let lines := splitChar '\n' (trimList csvText.data)
  match lines with
  | [] => []
  | [_] => []
  | header :: dataLines =>
    let headers := (splitChar ',' header).map (fun h => (trimList h).map Char.toLower)
    processLines headers 0 dataLines

/-- Observation: the `x` of the first point of a sweep result. -/
def sweepHeadX (o : Option (List SensitivityDataPoint)) : Option (Option ℚ) :=
  o.map (fun pts => pts.head?.map SensitivityDataPoint.x)

/-- Observation: the `x` of the last point of a sweep result. -/
def sweepLastX (o : Option (List SensitivityDataPoint)) : Option (Option ℚ) :=
  o.map (fun pts => pts.getLast?.map SensitivityDataPoint.x)

/-- C5: every formula is total and uses the positive-infinity sentinel exactly
on a non-positive denominator: `calcularIpRoas` is infinite iff `IP ≤ 0`,
`calcularRoasMinTradicional` iff `IP ≤ 0`, `calcularCprEstimado` iff
`vum ≤ 0`, and `fRoasTradicional` iff `IP ≤ 0` or `mStar ≤ 0`; by the type
`RVal` no other non-finite value (NaN) and no exception can arise. -/
theorem sentinel_infinity_iff (IP TF IE vum precio mStar pStar : ℚ) :
    (calcularIpRoas IP TF IE = .inf ↔ IP ≤ 0) ∧
    (calcularRoasMinTradicional IP vum precio = .inf ↔ IP ≤ 0) ∧
    (calcularCprEstimado IP vum = .inf ↔ vum ≤ 0) ∧
    (fRoasTradicional IP TF IE mStar pStar = .inf ↔ (IP ≤ 0 ∨ mStar ≤ 0)) := by
  refine ⟨?_, ?_, ?_, ?_⟩
  · unfold calcularIpRoas
    split <;> simp_all
  · unfold calcularRoasMinTradicional
    split <;> simp_all
  · unfold calcularCprEstimado
    split <;> simp_all
  · unfold fRoasTradicional
    split <;> simp_all

/-- Witness for `sentinel_infinity_iff` at concrete denominators. -/
theorem sentinel_infinity_iff_witness :
    (calcularIpRoas 0 1 1 = .inf ↔ (0 : ℚ) ≤ 0) ∧
    (calcularRoasMinTradicional 0 0 7 = .inf ↔ (0 : ℚ) ≤ 0) ∧
    (calcularCprEstimado 0 0 = .inf ↔ (0 : ℚ) ≤ 0) ∧
    (fRoasTradicional 0 1 1 0 7 = .inf ↔ ((0 : ℚ) ≤ 0 ∨ (0 : ℚ) ≤ 0)) :=
  sentinel_infinity_iff 0 1 1 0 7 0 7

/-- C4 (counterexample): with `adSpend = 1 > 0`, `fixedFee = -5` and
`expectedIncome = 5`, the IP-ROAS is exactly 1 although `fixedFee ≠ 0`:
the claimed "iff `fixedFee = 0` and `expectedIncome = 0`" fails. -/
theorem calcularIpRoas_one_counterexample :
    (0 : ℚ) < 1 ∧ calcularIpRoas 1 (-5) 5 = .fin 1 ∧ ((-5 : ℚ) ≠ 0) := by
  refine ⟨by norm_num, ?_, by norm_num⟩
  unfold calcularIpRoas
  norm_num

/-- C4 (amended): for every `adSpend > 0`, `calcularIpRoas` returns exactly 1
if and only if `fixedFee + expectedIncome = 0` (for non-negative fees this
coincides with both being zero). -/
theorem calcularIpRoas_eq_one_iff (IP TF IE : ℚ) (h : 0 < IP) :
    calcularIpRoas IP TF IE = .fin 1 ↔ TF + IE = 0 := by
  unfold calcularIpRoas
  rw [if_neg (not_le.mpr h)]
  simp only [RVal.fin.injEq, add_right_eq_self, div_eq_zero_iff]
  constructor
  · rintro (h0 | h0)
    · exact h0
    · exact absurd h0 h.ne'
  · exact fun h0 => Or.inl h0

/-- Witness for `calcularIpRoas_eq_one_iff` at `adSpend = 2`. -/
theorem calcularIpRoas_eq_one_iff_witness :
    (0 : ℚ) < 2 ∧ (calcularIpRoas 2 0 0 = .fin 1 ↔ (0 : ℚ) + 0 = 0) :=
  ⟨by norm_num, calcularIpRoas_eq_one_iff 2 0 0 (by norm_num)⟩

/-- C3 (counterexample): with `adSpend = -100` (finite but negative) and a
product of absolute margin 5, `calcularVum` returns `-20`, which is not
non-negative: the claim fails for arbitrary finite inputs. -/
theorem calcularVum_negative_counterexample :
    calcularVum ⟨-100, 0, 0, [⟨"A", 10, 1/2⟩]⟩ none = -20 ∧ ((-20 : ℚ) < 0) := by
  constructor
  · unfold calcularVum productoMargenMinimo costosTotales margenAbsoluto minStep
    norm_num
    rw [show ((-20 : ℚ)) = ((-20 : ℤ) : ℚ) by norm_num, Int.ceil_intCast]
  · norm_num

/-- C3 (amended): `calcularVum` always returns an integer, and it is
non-negative whenever the total cost `adSpend + fixedFee + expectedIncome`
is non-negative (in particular for non-negative inputs). -/
theorem calcularVum_integer_nonneg (params : ParametrosCliente) (margenAbsArg : Option ℚ) :
    (∃ k : ℤ, calcularVum params margenAbsArg = (k : ℚ)) ∧
    (0 ≤ costosTotales params → 0 ≤ calcularVum params margenAbsArg) := by
  cases margenAbsArg with
  | some m =>
    have hdef : calcularVum params (some m) =
        if m ≤ 0 then 0 else ((⌈costosTotales params / m⌉ : ℤ) : ℚ) := rfl
    rw [hdef]
    by_cases hm : m ≤ 0
    · rw [if_pos hm]
      exact ⟨⟨0, by norm_num⟩, fun _ => le_refl 0⟩
    · rw [if_neg hm]
      refine ⟨⟨_, rfl⟩, fun h => ?_⟩
      have h0 : (0 : ℤ) ≤ ⌈costosTotales params / m⌉ :=
        Int.ceil_nonneg (div_nonneg h (le_of_lt (not_le.mp hm)))
      exact_mod_cast h0
  | none =>
    cases hp : productoMargenMinimo params.productos with
    | none =>
      have hdef : calcularVum params none = 0 := by
        unfold calcularVum
        rw [hp]
      rw [hdef]
      exact ⟨⟨0, by norm_num⟩, fun _ => le_refl 0⟩
    | some producto =>
      have hdef : calcularVum params none =
          if margenAbsoluto producto ≤ 0 then 0
          else ((⌈costosTotales params / margenAbsoluto producto⌉ : ℤ) : ℚ) := by
        unfold calcularVum
        rw [hp]
      rw [hdef]
      by_cases hm : margenAbsoluto producto ≤ 0
      · rw [if_pos hm]
        exact ⟨⟨0, by norm_num⟩, fun _ => le_refl 0⟩
      · rw [if_neg hm]
        refine ⟨⟨_, rfl⟩, fun h => ?_⟩
        have h0 : (0 : ℤ) ≤ ⌈costosTotales params / margenAbsoluto producto⌉ :=
          Int.ceil_nonneg (div_nonneg h (le_of_lt (not_le.mp hm)))
        exact_mod_cast h0

/-- Witness for `calcularVum_integer_nonneg` at a concrete input. -/
theorem calcularVum_integer_nonneg_witness :
    (0 : ℚ) ≤ costosTotales ⟨100, 50, 50, [⟨"A", 10, 1/2⟩]⟩ ∧
    0 ≤ calcularVum ⟨100, 50, 50, [⟨"A", 10, 1/2⟩]⟩ none :=
  ⟨by norm_num [costosTotales],
    (calcularVum_integer_nonneg ⟨100, 50, 50, [⟨"A", 10, 1/2⟩]⟩ none).2
      (by norm_num [costosTotales])⟩

/-- C2: with an empty product list the aggregate calculator returns the
all-zero result with critical-product name `"N/A"`, and the sweep generator
returns `none` (not an empty list) for every sweep kind and point count. -/
theorem empty_portfolio_results (params : ParametrosCliente) (h : params.productos = []) :
    calcularTodo params =
      { ipRoas := .fin 0, vum := 0, roasMinTradicional := .fin 0, cprEstimado := .fin 0,
        costosTotales := 0, margenMinimoUsado := 0, precioProductoMinimo := 0,
        productoCritico := "N/A" } ∧
    ∀ (tipo : SensitivityType) (n : ℕ), calcularSensibilidad tipo params n = none := by
  have hm : productoMargenMinimo params.productos = none := by
    rw [h]; rfl
  constructor
  · unfold calcularTodo
    rw [hm]
  · intro tipo n
    unfold calcularSensibilidad
    rw [hm]

/-- Witness for `empty_portfolio_results` at a concrete input. -/
theorem empty_portfolio_results_witness :
    calcularTodo ⟨5, 7, 9, []⟩ =
      { ipRoas := .fin 0, vum := 0, roasMinTradicional := .fin 0, cprEstimado := .fin 0,
        costosTotales := 0, margenMinimoUsado := 0, precioProductoMinimo := 0,
        productoCritico := "N/A" } ∧
    calcularSensibilidad .Margen ⟨5, 7, 9, []⟩ 50 = none :=
  ⟨(empty_portfolio_results ⟨5, 7, 9, []⟩ rfl).1,
    (empty_portfolio_results ⟨5, 7, 9, []⟩ rfl).2 .Margen 50⟩

/-- Folding `minStep` over `t` starting from `a` yields the first minimal
element of `a :: t`: the list splits around the result, everything before it
is strictly larger, everything after it at least as large. -/
theorem foldl_minStep_decomp (t : List Producto) : ∀ a : Producto,
    ∃ l₁ l₂,
      a :: t = l₁ ++ (t.foldl minStep a) :: l₂ ∧
      (∀ q ∈ l₁, margenAbsoluto (t.foldl minStep a) < margenAbsoluto q) ∧
      (∀ q ∈ l₂, margenAbsoluto (t.foldl minStep a) ≤ margenAbsoluto q) := by
  induction t with
  | nil =>
    intro a
    exact ⟨[], [], rfl, by simp, by simp⟩
  | cons p t ih =>
    intro a
    obtain ⟨l₁, l₂, hdec, hstrict, hle⟩ := ih (minStep a p)
    by_cases h : margenAbsoluto p < margenAbsoluto a
    · have hsp : minStep a p = p := by
        unfold minStep
        rw [if_pos h]
      rw [hsp] at hdec hstrict hle
      have hfold : (p :: t).foldl minStep a = t.foldl minStep p := by
        rw [List.foldl_cons, hsp]
      rw [hfold]
      have hrp : margenAbsoluto (t.foldl minStep p) ≤ margenAbsoluto p := by
        cases l₁ with
        | nil =>
          simp only [List.nil_append] at hdec
          exact le_of_eq (congrArg margenAbsoluto ((List.cons.inj hdec).1).symm)
        | cons c l₁' =>
          simp only [List.cons_append] at hdec
          have hc : p = c := (List.cons.inj hdec).1
          have hlt := hstrict c (List.mem_cons_self c l₁')
          rw [← hc] at hlt
          exact le_of_lt hlt
      refine ⟨a :: l₁, l₂, ?_, ?_, hle⟩
      · rw [List.cons_append, ← hdec]
      · intro q hq
        rcases List.mem_cons.mp hq with rfl | hq
        · exact lt_of_le_of_lt hrp h
        · exact hstrict q hq
    · have hsp : minStep a p = a := by
        unfold minStep
        rw [if_neg h]
      have hap : margenAbsoluto a ≤ margenAbsoluto p := not_lt.mp h
      rw [hsp] at hdec hstrict hle
      have hfold : (p :: t).foldl minStep a = t.foldl minStep a := by
        rw [List.foldl_cons, hsp]
      rw [hfold]
      cases l₁ with
      | nil =>
        simp only [List.nil_append] at hdec
        have h1 : a = t.foldl minStep a := (List.cons.inj hdec).1
        have h2 : t = l₂ := (List.cons.inj hdec).2
        refine ⟨[], p :: l₂, ?_, by simp, ?_⟩
        · rw [List.nil_append, ← h1, h2]
        · intro q hq
          rcases List.mem_cons.mp hq with rfl | hq
          · rw [← h1]
            exact hap
          · exact hle q hq
      | cons c l₁' =>
        simp only [List.cons_append] at hdec
        have hca : a = c := (List.cons.inj hdec).1
        have ht : t = l₁' ++ (t.foldl minStep a) :: l₂ := (List.cons.inj hdec).2
        have hlt_a : margenAbsoluto (t.foldl minStep a) < margenAbsoluto a := by
          have hlt := hstrict c (List.mem_cons_self c l₁')
          rw [← hca] at hlt
          exact hlt
        refine ⟨a :: p :: l₁', l₂, ?_, ?_, hle⟩
        · simp only [List.cons_append]
          rw [← ht]
        · intro q hq
          rcases List.mem_cons.mp hq with rfl | hq
          · exact hlt_a
          rcases List.mem_cons.mp hq with rfl | hq
          · exact lt_of_lt_of_le hlt_a hap
          · exact hstrict q (List.mem_cons_of_mem c hq)

/-- C1: `productoMargenMinimo` returns `none` on the empty list, and on any
non-empty list it returns an element of minimal `margenAbsoluto`; the list
splits as `l₁ ++ r :: l₂` with every element of `l₁` strictly larger, so `r`
is the first element attaining the minimum. -/
theorem productoMargenMinimo_first_min :
    productoMargenMinimo [] = none ∧
    ∀ (a : Producto) (t : List Producto), ∃ r l₁ l₂,
      productoMargenMinimo (a :: t) = some r ∧
      a :: t = l₁ ++ r :: l₂ ∧
      (∀ q ∈ a :: t, margenAbsoluto r ≤ margenAbsoluto q) ∧
      (∀ q ∈ l₁, margenAbsoluto r < margenAbsoluto q) := by
  refine ⟨rfl, ?_⟩
  intro a t
  obtain ⟨l₁, l₂, hdec, hstrict, hle⟩ := foldl_minStep_decomp t a
  refine ⟨t.foldl minStep a, l₁, l₂, rfl, hdec, ?_, hstrict⟩
  intro q hq
  rw [hdec] at hq
  rcases List.mem_append.mp hq with hq | hq
  · exact le_of_lt (hstrict q hq)
  rcases List.mem_cons.mp hq with hq | hq
  · rw [hq]
  · exact hle q hq

/-- Witness for `productoMargenMinimo_first_min`: the tie portfolio with
absolute margins `[5, 5, 10]` selects the first product. -/
theorem productoMargenMinimo_first_min_witness :
    productoMargenMinimo [⟨"A", 10, 1/2⟩, ⟨"B", 5, 1⟩, ⟨"C", 20, 1/2⟩] =
      some ⟨"A", 10, 1/2⟩ ∧
    (∃ r l₁ l₂,
      productoMargenMinimo [⟨"A", 10, 1/2⟩, ⟨"B", 5, 1⟩, ⟨"C", 20, 1/2⟩] = some r ∧
      ([⟨"A", 10, 1/2⟩, ⟨"B", 5, 1⟩, ⟨"C", 20, 1/2⟩] : List Producto) = l₁ ++ r :: l₂ ∧
      (∀ q ∈ ([⟨"A", 10, 1/2⟩, ⟨"B", 5, 1⟩, ⟨"C", 20, 1/2⟩] : List Producto),
        margenAbsoluto r ≤ margenAbsoluto q) ∧
      (∀ q ∈ l₁, margenAbsoluto r < margenAbsoluto q)) :=
  ⟨by norm_num [productoMargenMinimo, minStep, margenAbsoluto],
    productoMargenMinimo_first_min.2 ⟨"A", 10, 1/2⟩ [⟨"B", 5, 1⟩, ⟨"C", 20, 1/2⟩]⟩

/-- With at least two points, `linspace` starts exactly at its left endpoint. -/
theorem linspace_head (a b : ℚ) (n : ℕ) (h : 2 ≤ n) : (linspace a b n).head? = some a := by
  unfold linspace
  rw [if_neg (by omega)]
  obtain ⟨m, rfl⟩ : ∃ m, n = m + 1 := ⟨n - 1, by omega⟩
  rw [List.range_succ_eq_map m, List.map_cons, List.head?_cons]
  norm_num

/-- With at least two points, `linspace` ends exactly at its right endpoint:
the rounding-free rational model makes `start + step * (n-1) = end` exact. -/
theorem linspace_getLast (a b : ℚ) (n : ℕ) (h : 2 ≤ n) :
    (linspace a b n).getLast? = some b := by
  unfold linspace
  rw [if_neg (by omega)]
  obtain ⟨m, rfl⟩ : ∃ m, n = m + 1 := ⟨n - 1, by omega⟩
  rw [List.range_succ m, List.map_append, List.map_singleton, List.getLast?_concat]
  have hm : ((m : ℚ)) ≠ 0 := by
    have h1 : m ≠ 0 := by omega
    exact_mod_cast h1
  have hcast : ((m + 1 : ℕ) : ℚ) - 1 = (m : ℚ) := by
    push_cast
    ring
  rw [hcast, div_mul_cancel₀ _ hm]
  norm_num

/-- C6: every point of a `Margen` (gross-margin) sweep carries the unswept
base IP-ROAS `calcularIpRoas adSpend fixedFee expectedIncome`, whatever the
swept `x` is. -/
theorem margen_sweep_constant_ipRoas (params : ParametrosCliente) (n : ℕ)
    (pts : List SensitivityDataPoint) (pt : SensitivityDataPoint)
    (hpts : calcularSensibilidad .Margen params n = some pts) (hmem : pt ∈ pts) :
    pt.ipRoas = calcularIpRoas params.inversionPublicitaria params.tarifaFija
      params.ingresoEsperado := by
  unfold calcularSensibilidad at hpts
  cases hprod : productoMargenMinimo params.productos with
  | none =>
    rw [hprod] at hpts
    exact absurd hpts (by simp)
  | some producto =>
    rw [hprod] at hpts
    simp only [Option.some.injEq] at hpts
    subst hpts
    obtain ⟨x, _, hx⟩ := List.mem_map.mp hmem
    rw [← hx]

/-- Witness for `margen_sweep_constant_ipRoas` on a two-point sweep. -/
theorem margen_sweep_constant_ipRoas_witness :
    SensitivityDataPoint.ipRoas ⟨1/4, .fin 1, .fin 4⟩ = calcularIpRoas 100 0 0 :=
  margen_sweep_constant_ipRoas ⟨100, 0, 0, [⟨"A", 10, 1/2⟩]⟩ 2
    [⟨1/4, .fin 1, .fin 4⟩, ⟨3/4, .fin 1, .fin (7/5)⟩] ⟨1/4, .fin 1, .fin 4⟩
    (by
      norm_num [calcularSensibilidad, productoMargenMinimo, minStep, margenAbsoluto,
        linspace, List.range_succ, calcularIpRoas, fRoasTradicional]
      norm_num [show ((100:ℚ)/(5/2)) = 40 by norm_num,
        show ((100:ℚ)/(15/2)) = 40/3 by norm_num,
        show ⌈(40:ℚ)⌉ = 40 by rw [Int.ceil_eq_iff]; norm_num,
        show ⌈(40:ℚ)/3⌉ = 14 by rw [Int.ceil_eq_iff]; norm_num])
    (List.mem_cons_self _ _)

/-- C7: for an AdSpend (`IP`) sweep over a non-empty portfolio with at least
two points, the first point has `x` exactly `max 100 (base * 0.5)` and the
last point has `x` exactly `base * 1.5`, where `base` is `adSpend` when
positive and the substituted default `10000` otherwise. -/
theorem adspend_sweep_endpoints (params : ParametrosCliente) (n : ℕ)
    (a : Producto) (t : List Producto) (h2 : 2 ≤ n) (hp : params.productos = a :: t) :
    sweepHeadX (calcularSensibilidad .IP params n) =
      some (some (max 100
        ((if params.inversionPublicitaria ≤ 0 then 10000
          else params.inversionPublicitaria) * (1/2)))) ∧
    sweepLastX (calcularSensibilidad .IP params n) =
      some (some
        ((if params.inversionPublicitaria ≤ 0 then 10000
          else params.inversionPublicitaria) * (3/2))) := by
  obtain ⟨r, hr⟩ : ∃ r, productoMargenMinimo params.productos = some r := by
    rw [hp]
    exact ⟨_, rfl⟩
  have hcalc : calcularSensibilidad .IP params n =
      some ((linspace
        (max 100 ((if params.inversionPublicitaria ≤ 0 then 10000
          else params.inversionPublicitaria) * (1/2)))
        ((if params.inversionPublicitaria ≤ 0 then 10000
          else params.inversionPublicitaria) * (3/2)) n).map (fun x =>
        { x := x
          ipRoas := calcularIpRoas x params.tarifaFija params.ingresoEsperado
          roasTradicional := fRoasTradicional x params.tarifaFija params.ingresoEsperado
            (margenAbsoluto r) r.precio })) := by
    unfold calcularSensibilidad
    rw [hr]
  constructor
  · unfold sweepHeadX
    rw [hcalc, Option.map_some', List.head?_map, linspace_head _ _ n h2, Option.map_some']
    rfl
  · unfold sweepLastX
    rw [hcalc, Option.map_some', List.getLast?_map, linspace_getLast _ _ n h2, Option.map_some']
    rfl

/-- Witness for `adspend_sweep_endpoints` at the two examples of the spec:
`adSpend = 50000` gives endpoints 25000 and 75000; `adSpend = 0`
(substituted to 10000) gives 5000 and 15000. -/
theorem adspend_sweep_endpoints_witness :
    sweepHeadX (calcularSensibilidad .IP ⟨50000, 0, 0, [⟨"A", 10, 1/2⟩]⟩ 50) =
      some (some 25000) ∧
    sweepLastX (calcularSensibilidad .IP ⟨50000, 0, 0, [⟨"A", 10, 1/2⟩]⟩ 50) =
      some (some 75000) ∧
    sweepHeadX (calcularSensibilidad .IP ⟨0, 0, 0, [⟨"A", 10, 1/2⟩]⟩ 50) =
      some (some 5000) ∧
    sweepLastX (calcularSensibilidad .IP ⟨0, 0, 0, [⟨"A", 10, 1/2⟩]⟩ 50) =
      some (some 15000) := by
  have h1 := adspend_sweep_endpoints ⟨50000, 0, 0, [⟨"A", 10, 1/2⟩]⟩ 50
    ⟨"A", 10, 1/2⟩ [] (by norm_num) rfl
  have h2 := adspend_sweep_endpoints ⟨0, 0, 0, [⟨"A", 10, 1/2⟩]⟩ 50
    ⟨"A", 10, 1/2⟩ [] (by norm_num) rfl
  norm_num at h1 h2
  exact ⟨h1.1, h1.2, h2.1, h2.2⟩

/-- C10: whenever the absolute margin of the critical product is strictly
positive, the field `roasMinTradicional` of the aggregate calculator equals
the composite sweep formula `fRoasTradicional` at the base point; and any disagreement
forces a non-positive critical margin, the aggregate path returning 0 and
the composite returning infinity. -/
theorem calcularTodo_fRoas_agree (params : ParametrosCliente) (p : Producto)
    (hp : productoMargenMinimo params.productos = some p) :
    (0 < margenAbsoluto p →
      (calcularTodo params).roasMinTradicional =
        fRoasTradicional params.inversionPublicitaria params.tarifaFija
          params.ingresoEsperado (margenAbsoluto p) p.precio) ∧
    ((calcularTodo params).roasMinTradicional ≠
        fRoasTradicional params.inversionPublicitaria params.tarifaFija
          params.ingresoEsperado (margenAbsoluto p) p.precio →
      margenAbsoluto p ≤ 0 ∧
      (calcularTodo params).roasMinTradicional = .fin 0 ∧
      fRoasTradicional params.inversionPublicitaria params.tarifaFija
        params.ingresoEsperado (margenAbsoluto p) p.precio = .inf) := by
  have hagg : (calcularTodo params).roasMinTradicional =
      calcularRoasMinTradicional params.inversionPublicitaria
        (calcularVum params none) p.precio := by
    unfold calcularTodo
    rw [hp]
  have hvum : calcularVum params none =
      if margenAbsoluto p ≤ 0 then 0
      else ((⌈costosTotales params / margenAbsoluto p⌉ : ℤ) : ℚ) := by
    unfold calcularVum
    rw [hp]
  have hmain : 0 < margenAbsoluto p →
      (calcularTodo params).roasMinTradicional =
        fRoasTradicional params.inversionPublicitaria params.tarifaFija
          params.ingresoEsperado (margenAbsoluto p) p.precio := by
    intro hm
    rw [hagg, hvum, if_neg (not_le.mpr hm)]
    unfold calcularRoasMinTradicional fRoasTradicional
    by_cases hip : params.inversionPublicitaria ≤ 0
    · rw [if_pos hip, if_pos (Or.inl hip)]
    · rw [if_neg hip, if_neg (by push_neg; exact ⟨lt_of_not_le hip, hm⟩)]
      have harg : costosTotales params =
          params.tarifaFija + params.inversionPublicitaria + params.ingresoEsperado := by
        unfold costosTotales
        ring
      rw [harg]
  refine ⟨hmain, ?_⟩
  intro hne
  by_cases hm : 0 < margenAbsoluto p
  · exact absurd (hmain hm) hne
  · have hm' : margenAbsoluto p ≤ 0 := not_lt.mp hm
    have hvz : calcularVum params none = 0 := by
      rw [hvum, if_pos hm']
    have hcomp : fRoasTradicional params.inversionPublicitaria params.tarifaFija
        params.ingresoEsperado (margenAbsoluto p) p.precio = .inf := by
      unfold fRoasTradicional
      rw [if_pos (Or.inr hm')]
    by_cases hip : params.inversionPublicitaria ≤ 0
    · exfalso
      apply hne
      rw [hagg, hcomp]
      unfold calcularRoasMinTradicional
      rw [if_pos hip]
    · refine ⟨hm', ?_, hcomp⟩
      rw [hagg, hvz]
      unfold calcularRoasMinTradicional
      rw [if_neg hip]
      norm_num

/-- Witness for `calcularTodo_fRoas_agree` at a concrete portfolio. -/
theorem calcularTodo_fRoas_agree_witness :
    (0 : ℚ) < margenAbsoluto ⟨"A", 10, 1/2⟩ ∧
    (calcularTodo ⟨100, 50, 50, [⟨"A", 10, 1/2⟩]⟩).roasMinTradicional =
      fRoasTradicional 100 50 50 (margenAbsoluto ⟨"A", 10, 1/2⟩) 10 :=
  ⟨by norm_num [margenAbsoluto],
    (calcularTodo_fRoas_agree ⟨100, 50, 50, [⟨"A", 10, 1/2⟩]⟩ ⟨"A", 10, 1/2⟩
      (by norm_num [productoMargenMinimo])).1 (by norm_num [margenAbsoluto])⟩

/-- C8: `parseCSV` is total by construction and never signals failure; an
empty or header-only input (fewer than two lines after trimming) yields the
empty list; a data row produces a product exactly when it has at least as
many fields as the header and both its price and margin strings parse as
floating-point numbers; and accepted rows are appended in input order
(processing a concatenation of line blocks concatenates the results). -/
theorem parseCSV_row_policy :
    (∀ s : String, (splitChar '\n' (trimList s.data)).length < 2 → parseCSV s = []) ∧
    parseCSV "" = [] ∧
    (∀ (headers : List (List Char)) (count : ℕ) (line : List Char),
      (rowProduct headers count line).isSome = true ↔
        (headers.length ≤ (valuesOf line).length ∧
         (jsParseFloat (precioStrOf headers (valuesOf line))).isSome = true ∧
         (jsParseFloat (margenStrOf headers (valuesOf line))).isSome = true)) ∧
    (∀ (headers : List (List Char)) (count : ℕ) (l₁ l₂ : List (List Char)),
      processLines headers count (l₁ ++ l₂) =
        processLines headers count l₁ ++
          processLines headers (count + (processLines headers count l₁).length) l₂) := by
  have hshort : ∀ s : String, (splitChar '\n' (trimList s.data)).length < 2 →
      parseCSV s = [] := by
    intro s h
    unfold parseCSV
    rcases hl : splitChar '\n' (trimList s.data) with _ | ⟨a, _ | ⟨b, tl⟩⟩
    · rfl
    · rfl
    · rw [hl] at h
      simp at h
      omega
  refine ⟨hshort, hshort "" (by decide), ?_, ?_⟩
  · intro headers count line
    unfold rowProduct
    by_cases hlen : (valuesOf line).length < headers.length
    · rw [if_pos hlen]
      constructor
      · intro hh
        exact absurd hh (by simp)
      · rintro ⟨hle, -, -⟩
        exact absurd hle (Nat.not_le.mpr hlen)
    · rw [if_neg hlen]
      rcases hpp : jsParseFloat (precioStrOf headers (valuesOf line)) with _ | pv <;>
        rcases hmm : jsParseFloat (margenStrOf headers (valuesOf line)) with _ | mv <;>
        simp [hpp, hmm, Nat.not_lt.mp hlen]
  · intro headers count l₁ l₂
    induction l₁ generalizing count with
    | nil =>
      simp [processLines]
    | cons line rest ih =>
      have hL : ∀ (c : ℕ) (ls : List (List Char)), processLines headers c (line :: ls) =
          match rowProduct headers c line with
          | some p => p :: processLines headers (c + 1) ls
          | none => processLines headers c ls := fun c ls => rfl
      rw [List.cons_append, hL count (rest ++ l₂), hL count rest]
      cases hrp : rowProduct headers count line with
      | some p =>
        dsimp only
        rw [ih (count + 1), List.cons_append, List.length_cons]
        have hc : count + ((processLines headers (count + 1) rest).length + 1) =
            count + 1 + (processLines headers (count + 1) rest).length := by
          omega
        rw [hc]
      | none =>
        dsimp only
        exact ih count

/-- Witness for `parseCSV_row_policy`: a header-only input parses to the
empty list, and the row-acceptance criterion instantiated on a concrete
header and row. -/
theorem parseCSV_row_policy_witness :
    parseCSV "nombre,precio,margen" = [] ∧
    ((rowProduct ["margen".data] 0 "abc".data).isSome = true ↔
      (([("margen".data : List Char)].length ≤ (valuesOf "abc".data).length ∧
       (jsParseFloat (precioStrOf ["margen".data] (valuesOf "abc".data))).isSome = true ∧
       (jsParseFloat (margenStrOf ["margen".data] (valuesOf "abc".data))).isSome = true))) :=
  ⟨parseCSV_row_policy.1 "nombre,precio,margen" (by decide),
    parseCSV_row_policy.2.2.1 ["margen".data] 0 "abc".data⟩

/-- C9: for every accepted row the stored gross margin is the parsed margin
divided by 100 when that value exceeds 1 and the parsed value unchanged
otherwise; concretely, header `nombre,precio,margen` with row
`Zapatos,1500,35` parses to the product named "Zapatos" with price 1500 and
margin 0.35. -/
theorem parseCSV_margin_percentage (headers : List (List Char)) (count : ℕ)
    (line : List Char) (p : Producto) (m : ℚ)
    (hrow : rowProduct headers count line = some p)
    (hm : jsParseFloat (margenStrOf headers (valuesOf line)) = some m) :
    p.margenBruto = (if 1 < m then m / 100 else m) ∧
    parseCSV "nombre,precio,margen\nZapatos,1500,35" =
      [{ nombre := "Zapatos", precio := 1500, margenBruto := 7/20 }] := by
  constructor
  · unfold rowProduct at hrow
    by_cases hlen : (valuesOf line).length < headers.length
    · rw [if_pos hlen] at hrow
      exact absurd hrow (by simp)
    · rw [if_neg hlen] at hrow
      rcases hpp : jsParseFloat (precioStrOf headers (valuesOf line)) with _ | pv
      · rw [hpp] at hrow
        exact absurd hrow (by simp)
      · rw [hpp, hm] at hrow
        simp only [Option.some.injEq] at hrow
        rw [← hrow]
  · simp +decide [parseCSV, processLines, rowProduct, valuesOf, trimList, splitChar,
      isWsChar, jsParseFloat, digitsToNat, rowGet, orElseStr, orDefault,
      precioStrOf, margenStrOf, nombreOf]
    norm_num

/-- Witness for `parseCSV_margin_percentage` on the concrete row
`Zapatos,1500,35` under header `nombre,precio,margen`: the parsed margin 35
exceeds 1, so the stored margin is `35 / 100`. -/
theorem parseCSV_margin_percentage_witness :
    (Producto.mk "Zapatos" 1500 (7/20)).margenBruto = (if (1 : ℚ) < 35 then 35 / 100 else 35) ∧
    parseCSV "nombre,precio,margen\nZapatos,1500,35" =
      [{ nombre := "Zapatos", precio := 1500, margenBruto := 7/20 }] :=
  parseCSV_margin_percentage ["nombre".data, "precio".data, "margen".data] 0
    "Zapatos,1500,35".data ⟨"Zapatos", 1500, 7/20⟩ 35
    (by
      simp +decide [rowProduct, valuesOf, trimList, splitChar, isWsChar, jsParseFloat,
        digitsToNat, rowGet, orElseStr, orDefault, precioStrOf, margenStrOf, nombreOf]
      norm_num)
    (by
      simp +decide [valuesOf, trimList, splitChar, isWsChar, jsParseFloat,
        digitsToNat, rowGet, orElseStr, orDefault, margenStrOf])

end IpRoas
